import Mathlib

/-!
Shallow embedding of the documentation-rendering components of this
repository and of its documentation-upload script, together with proofs
about the claims of the specification.

Embedded source files:
  * `apps/website/src/components/documentation/tsdoc/TSDoc.tsx`
    (the `TSDoc` component and its inner `createNode` renderer),
  * `apps/website/src/components/documentation/HierarchyText.tsx`
    (the `HierarchyText` component),
  * the documentation-upload script (glob over
    `packages/<pkg>/docs/docs.api.json`, read each file, `replace into
    documentation (version, data)`).
-/

namespace TSDocModel

/-- A resolved API item, as produced by
`resolveDeclarationReference(...).resolvedApiItem`.  Only the fields the
renderer reads are modelled: `displayName` and the URI computed for it by
the (external to `src/`) `resolveItemURI` utility, stored here as a field
`uri` so that `resolveItemURI` is a plain projection. -/
structure ResolvedItem where
  displayName : String
  uri : String
deriving Repr, DecidableEq

/-- Modelled from the spec: `resolveItemURI` (a utility outside the
embedded sources) maps a resolved API item to the URI used for its link;
its internals do not matter to any claim, so it is modelled as the
projection to the stored `uri` field. -/
def resolveItemURI (r : ResolvedItem) : String :=
  r.uri

/-- The associated `ApiModel` of an item.  The renderer only ever calls
`resolveDeclarationReference(codeDestination, item).resolvedApiItem` on it
with the fixed ambient `item`, so that call is modelled as a single
function from the code destination to an optional resolved item. -/
structure ApiModel where
  resolve : String → Option ResolvedItem

/-- The ambient `ApiItem` handed to the `TSDoc` component.  The renderer
reads only `getAssociatedModel()`, which may be absent. -/
structure ApiItem where
  associatedModel : Option ApiModel

/-- The documentation-comment tree (`DocNode` of `@microsoft/tsdoc`),
restricted to the shape the renderer reads.  Section-valued fields of a
comment (`deprecatedBlock.content`, `summarySection`,
`remarksBlock.content`, each custom block content, `returnsBlock.content`,
each see block content) are always `DocSection` nodes in the tsdoc model,
so they are stored directly as their lists of child nodes.  A custom block
is its block tag name paired with its content.  Every node kind outside
the eight the renderer lists is represented by `unknown` carrying that
kind string. -/
inductive DocNode where
  | plainText (text : String)
  | paragraph (nodes : List DocNode)
  | sectionNode (nodes : List DocNode)
  | softBreak
  | linkTag (codeDestination : Option String) (urlDestination : Option String)
      (linkText : Option String)
  | codeSpan (code : String)
  | fencedCode (language : Option String) (code : String)
  | comment (deprecatedBlock : Option (List DocNode))
      (summarySection : Option (List DocNode))
      (remarksBlock : Option (List DocNode))
      (customBlocks : List (String × List DocNode))
      (returnsBlock : Option (List DocNode))
      (seeBlocks : List (List DocNode))
  | unknown (kind : String)
deriving Repr

/-- The `DocNodeKind` string of a node (`tsdoc.kind` in the source). -/
def DocNode.kind : DocNode → String
  | .plainText _ => "PlainText"
  | .paragraph _ => "Paragraph"
  | .sectionNode _ => "Section"
  | .softBreak => "SoftBreak"
  | .linkTag _ _ _ => "LinkTag"
  | .codeSpan _ => "CodeSpan"
  | .fencedCode _ _ => "FencedCode"
  | .comment _ _ _ _ _ _ => "Comment"
  | .unknown k => k

/-- The eight `DocNodeKind` values the `createNode` switch lists. -/
def handledKinds : List String :=
  ["PlainText", "Paragraph", "Section", "SoftBreak", "LinkTag",
   "CodeSpan", "FencedCode", "Comment"]

/-- The display output produced by `createNode` (the shape of the JSX it
returns).  `null` is the React null child: it renders nothing but keeps
its slot among siblings. -/
inductive Output where
  | null
  | span (text : String)
  | container (children : List Output)
  | fragment
  | itemLink (uri : String) (text : String)
  | urlLink (href : String) (text : String)
  | codeSpan (code : String)
  | highlighted (code : String) (lang : String)
  | commentDiv (slots : List Output)
  | deprecated (child : Output)
  | remarks (child : Output)
  | defaultValue (child : Output)
  | returns (child : Output)
  | exampleBlock (child : Output)
  | exampleList (items : List Output)
  | see (children : List Output)
deriving Repr

/-- JS `String.prototype.trim` on the fenced code, modelled
characterwise: it drops leading and trailing whitespace. -/
def trimString (s : String) : String :=
  ⟨((s.data.dropWhile Char.isWhitespace).reverse.dropWhile Char.isWhitespace).reverse⟩

/-- JS `String.prototype.toUpperCase` as applied to block tag names,
modelled characterwise (tag names are ASCII, where the two agree). -/
def toUpperCase (s : String) : String :=
  ⟨s.data.map Char.toUpper⟩

/-- `StandardTags.example.tagNameWithUpperCase`. -/
def exampleTagUpper : String := "@EXAMPLE"

/-- `StandardTags.defaultValue.tagNameWithUpperCase`. -/
def defaultValueTagUpper : String := "@DEFAULTVALUE"

/-- The deprecation slot of the comment div:
`comment.deprecatedBlock ? <DeprecatedBlock>...</DeprecatedBlock> : null`. -/
def slotDeprecated : Option Output → Output
  | some o => Output.deprecated o
  | none => Output.null

/-- The summary slot: `comment.summarySection ? createNode(...) : null`. -/
def slotSummary : Option Output → Output
  | some o => o
  | none => Output.null

/-- The remarks slot: `comment.remarksBlock ? <RemarksBlock>...</RemarksBlock> : null`. -/
def slotRemarks : Option Output → Output
  | some o => Output.remarks o
  | none => Output.null

/-- The default-value slot:
`defaultValueBlock ? <DefaultValueBlock>...</DefaultValueBlock> : null`,
applied to the found block with its content already rendered. -/
def slotDefaultValue : Option (String × Output) → Output
  | some b => Output.defaultValue b.2
  | none => Output.null

/-- The returns slot: `comment.returnsBlock ? <ReturnsBlock>...</ReturnsBlock> : null`. -/
def slotReturns : Option Output → Output
  | some o => Output.returns o
  | none => Output.null

/-- The examples slot: `exampleBlocks.length ? exampleBlocks.map(...) : null`,
applied to the filtered blocks with their contents already rendered. -/
def slotExamples (blocks : List (String × Output)) : Output :=
  if blocks.isEmpty then Output.null
  else Output.exampleList (blocks.map (fun b => Output.exampleBlock b.2))

mutual

/-- `TSDoc.createNode`: the switch over `tsdoc.kind`.  Section-valued
comment fields are stored as child-node lists, so where the source calls
`createNode` on such a section the embedding produces the
`Section`-branch output `Output.container` of the rendered children
directly. -/
def createNode (item : ApiItem) : DocNode → Output
  | .plainText text => Output.span text
  | .paragraph nodes => Output.container (createNodes item nodes)
  | .sectionNode nodes => Output.container (createNodes item nodes)
  | .softBreak => Output.fragment
  | .linkTag codeDestination urlDestination linkText =>
    match codeDestination with
    | some dest =>
      match item.associatedModel.bind (fun m => m.resolve dest) with
      | none => Output.null
      | some foundItem =>
        Output.itemLink (resolveItemURI foundItem) (linkText.getD foundItem.displayName)
    | none =>
      match urlDestination with
      | some url =>
        if url = "" then Output.null
        else Output.urlLink url (linkText.getD url)
      | none => Output.null
  | .codeSpan code => Output.codeSpan code
  | .fencedCode language code =>
    Output.highlighted (trimString code) (language.getD "typescript")
  | .comment dep summ rem custom ret seeBlocks =>
    let rendered := renderBlocks item custom
    let exampleBlocks := rendered.filter (fun b => toUpperCase b.1 == exampleTagUpper)
    let defaultValueBlock := rendered.find? (fun b => toUpperCase b.1 == defaultValueTagUpper)
    Output.commentDiv
      [ slotDeprecated (renderOpt item dep),
        slotSummary (renderOpt item summ),
        slotRemarks (renderOpt item rem),
        slotDefaultValue defaultValueBlock,
        slotReturns (renderOpt item ret),
        slotExamples exampleBlocks,
        (if seeBlocks.isEmpty then Output.null
         else Output.see (renderSections item seeBlocks)) ]
  | .unknown _ => Output.null

/-- Rendering of a list of sibling nodes
(`nodes.map((node, idx) => createNode(node, idx))`). -/
def createNodes (item : ApiItem) : List DocNode → List Output
  | [] => []
  | n :: ns => createNode item n :: createNodes item ns

/-- Rendering of the contents of the custom blocks of a comment, keeping
each block tag name alongside the rendered content section. -/
def renderBlocks (item : ApiItem) : List (String × List DocNode) → List (String × Output)
  | [] => []
  | (tag, content) :: bs =>
    (tag, Output.container (createNodes item content)) :: renderBlocks item bs

/-- Rendering of a list of content sections (the see blocks). -/
def renderSections (item : ApiItem) : List (List DocNode) → List Output
  | [] => []
  | ns :: rest => Output.container (createNodes item ns) :: renderSections item rest

/-- Rendering of an optional content section (`x ? createNode(x.content) : null`,
before the slot wrapper is applied). -/
def renderOpt (item : ApiItem) : Option (List DocNode) → Option Output
  | none => none
  | some ns => some (Output.container (createNodes item ns))

end

mutual

/-- Fuel-instrumented variant of `createNode`: it performs exactly the
recursive calls of `createNode`, each one on a strict subtree and with
one unit of fuel consumed, and yields `none` when the fuel runs out.
That the fuel `sizeOf t` always suffices is the termination statement for
the recursion of the source. -/
def createNodeFuel (item : ApiItem) : Nat → DocNode → Option Output
  | 0, _ => none
  | Nat.succ _, .plainText text => some (Output.span text)
  | Nat.succ f, .paragraph ns => (createNodesFuel item f ns).map Output.container
  | Nat.succ f, .sectionNode ns => (createNodesFuel item f ns).map Output.container
  | Nat.succ _, .softBreak => some Output.fragment
  | Nat.succ _, .linkTag codeDestination urlDestination linkText =>
    some (match codeDestination with
    | some dest =>
      match item.associatedModel.bind (fun m => m.resolve dest) with
      | none => Output.null
      | some foundItem =>
        Output.itemLink (resolveItemURI foundItem) (linkText.getD foundItem.displayName)
    | none =>
      match urlDestination with
      | some url =>
        if url = "" then Output.null
        else Output.urlLink url (linkText.getD url)
      | none => Output.null)
  | Nat.succ _, .codeSpan code => some (Output.codeSpan code)
  | Nat.succ _, .fencedCode language code =>
    some (Output.highlighted (trimString code) (language.getD "typescript"))
  | Nat.succ f, .comment dep summ rem custom ret seeBlocks => do
    let rendered ← renderBlocksFuel item f custom
    let depOut ← renderOptFuel item f dep
    let summOut ← renderOptFuel item f summ
    let remOut ← renderOptFuel item f rem
    let retOut ← renderOptFuel item f ret
    let seeOut ← renderSectionsFuel item f seeBlocks
    let exampleBlocks := rendered.filter (fun b => toUpperCase b.1 == exampleTagUpper)
    let defaultValueBlock := rendered.find? (fun b => toUpperCase b.1 == defaultValueTagUpper)
    some (Output.commentDiv
      [ slotDeprecated depOut,
        slotSummary summOut,
        slotRemarks remOut,
        slotDefaultValue defaultValueBlock,
        slotReturns retOut,
        slotExamples exampleBlocks,
        (if seeBlocks.isEmpty then Output.null
         else Output.see seeOut) ])
  | Nat.succ _, .unknown _ => some Output.null

/-- Fuel-instrumented `createNodes`. -/
def createNodesFuel (item : ApiItem) : Nat → List DocNode → Option (List Output)
  | 0, _ => none
  | Nat.succ _, [] => some []
  | Nat.succ f, n :: ns => do
    let o ← createNodeFuel item f n
    let os ← createNodesFuel item f ns
    some (o :: os)

/-- Fuel-instrumented `renderBlocks`. -/
def renderBlocksFuel (item : ApiItem) :
    Nat → List (String × List DocNode) → Option (List (String × Output))
  | 0, _ => none
  | Nat.succ _, [] => some []
  | Nat.succ f, (tag, content) :: bs => do
    let o ← createNodesFuel item f content
    let os ← renderBlocksFuel item f bs
    some ((tag, Output.container o) :: os)

/-- Fuel-instrumented `renderSections`. -/
def renderSectionsFuel (item : ApiItem) : Nat → List (List DocNode) → Option (List Output)
  | 0, _ => none
  | Nat.succ _, [] => some []
  | Nat.succ f, ns :: rest => do
    let o ← createNodesFuel item f ns
    let os ← renderSectionsFuel item f rest
    some (Output.container o :: os)

/-- Fuel-instrumented rendering of an optional content section. -/
def renderOptFuel (item : ApiItem) :
    Nat → Option (List DocNode) → Option (Option Output)
  | 0, _ => none
  | Nat.succ _, none => some none
  | Nat.succ f, some ns =>
    (createNodesFuel item f ns).map (fun l => some (Output.container l))

end

/-- Joint statement that fuel `f` suffices for every argument of size at
most `f`, for all five fuel-instrumented functions. -/
def FuelSpec (item : ApiItem) (f : Nat) : Prop :=
  (∀ t : DocNode, sizeOf t ≤ f →
    createNodeFuel item f t = some (createNode item t)) ∧
  (∀ ns : List DocNode, sizeOf ns ≤ f →
    createNodesFuel item f ns = some (createNodes item ns)) ∧
  (∀ bs : List (String × List DocNode), sizeOf bs ≤ f →
    renderBlocksFuel item f bs = some (renderBlocks item bs)) ∧
  (∀ ss : List (List DocNode), sizeOf ss ≤ f →
    renderSectionsFuel item f ss = some (renderSections item ss)) ∧
  (∀ x : Option (List DocNode), sizeOf x ≤ f →
    renderOptFuel item f x = some (renderOpt item x))

/-- The slot list of a rendered comment div. -/
def commentSlots : Output → List Output
  | Output.commentDiv slots => slots
  | _ => []

end TSDocModel

namespace HierarchyModel

/-- A heritage type of the API model; the component reads only its
`excerpt`, modelled as the excerpt text. -/
structure HeritageType where
  excerpt : String
deriving Repr, DecidableEq

/-- The `ApiClass | ApiInterface` union handed to `HierarchyText`.  A
class carries `extendsType` (possibly absent) and `implementsTypes`; an
interface carries `extendsTypes`, kept optional because the component
guards it with a falsiness check (`!extendsTypes`). -/
inductive HierItem where
  | classItem (extendsType : Option HeritageType) (implementsTypes : List HeritageType)
  | interfaceItem (extendsTypes : Option (List HeritageType))
deriving Repr, DecidableEq

/-- The `type` prop of `HierarchyText`. -/
inductive HierKind where
  | extendsKind
  | implementsKind
deriving Repr, DecidableEq

/-- The heading string of the prop, Extends or Implements. -/
def HierKind.heading : HierKind → String
  | .extendsKind => "Extends"
  | .implementsKind => "Implements"

/-- The display output of `HierarchyText`: nothing, or a heading together
with one excerpt per rendered parent type, in order. -/
inductive HierOutput where
  | null
  | hierarchy (heading : String) (excerpts : List String)
deriving Repr, DecidableEq

/-- The `HierarchyText` component.  The source first returns `null` when
a class has no extends type and an empty implements list, or when an
interface has a falsy (absent) `extendsTypes`; it then selects the
excerpt list by kind and prop, returning `null` when that list is empty
(or the extends type absent), and otherwise renders one `ExcerptText`
per excerpt under the heading given by the prop. -/
def hierarchyText (item : HierItem) (type : HierKind) : HierOutput :=
  match item with
  | .classItem ext impl =>
    if ext = none ∧ impl = [] then HierOutput.null
    else if type = HierKind.implementsKind then
      if impl = [] then HierOutput.null
      else HierOutput.hierarchy type.heading (impl.map (fun t => t.excerpt))
    else
      match ext with
      | none => HierOutput.null
      | some e => HierOutput.hierarchy type.heading [e.excerpt]
  | .interfaceItem exts =>
    match exts with
    | none => HierOutput.null
    | some l =>
      if l = [] then HierOutput.null
      else HierOutput.hierarchy type.heading (l.map (fun t => t.excerpt))

end HierarchyModel

namespace UploadModel

/-- The package input with its JS falsy default applied: it defaults to
the star wildcard when the action input is absent (in which case
`getInput` yields the empty string) or empty, since the empty string is
the only falsy string. -/
def pkgOf (input : String) : String :=
  if input = "" then "*" else input

/-- The version input with its JS falsy default of main applied. -/
def versionOf (input : String) : String :=
  if input = "" then "main" else input

/-- The glob pattern built by the script for a package input. -/
def globPattern (pkgInput : String) : String :=
  "packages/" ++ pkgOf pkgInput ++ "/docs/docs.api.json"

/-- The documentation path of a named package. -/
def docsPath (pkgName : String) : String :=
  "packages/" ++ pkgName ++ "/docs/docs.api.json"

/-- Modelled from the spec: the glob engine of the script is external to
the embedded sources; on the single package segment of the pattern, a
literal segment matches exactly itself and the `*` wildcard matches every
package name. -/
def globMatchesPackage (pkgPat pkgName : String) : Bool :=
  pkgPat == "*" || pkgPat == pkgName

/-- One matched file of the glob-and-insert loop together with the
outcomes of the two effects the loop performs on it: `read` is what
`readFile` does (the data, or the error it throws), and `insertErr` is
the error `sql.execute` throws for it, if any. -/
structure FileJob where
  path : String
  read : Except String String
  insertErr : Option String
deriving Repr

/-- Modelled from the spec: the managed documentation database is
external to the repository; the spec stores blobs `for later retrieval by
version`, so the table is modelled as rows of (version, data), the
`replace into documentation (version, data)` statement as an upsert of
that row, and retrieval by version as collecting the data of the rows
carrying that version. -/
def replaceInto (db : List (String × String)) (version data : String) :
    List (String × String) :=
  (version, data) :: db.filter (fun r => ¬ (r = (version, data)))

/-- Retrieval by version from the modelled documentation table. -/
def retrieveByVersion (db : List (String × String)) (version : String) : List String :=
  (db.filter (fun r => r.1 = version)).map (fun r => r.2)

/-- The state the script accumulates: the database rows and the messages
passed to `setFailed`. -/
structure ScriptState where
  db : List (String × String)
  failed : List String
deriving Repr, DecidableEq

/-- The `for await` glob-and-insert loop.  `readFile` sits outside the
`try`, so a read error escapes the loop at once: the result carries the
state reached, the matched files never processed, and that error.  An
error of `sql.execute` is caught inside the `try`: `setFailed` records it
and the loop continues with the next file. -/
def runLoop (version : String) (st : ScriptState) :
    List FileJob → ScriptState × List FileJob × Option String
  | [] => (st, [], none)
  | job :: rest =>
    match job.read with
    | .error e => (st, rest, some e)
    | .ok data =>
      match job.insertErr with
      | some e => runLoop version { st with failed := st.failed ++ [e] } rest
      | none => runLoop version { st with db := replaceInto st.db version data } rest

end UploadModel

namespace TSDocModel

/-- Every documentation node has positive size. -/
theorem DocNode.one_le_sizeOf (t : DocNode) : 1 ≤ sizeOf t := by
  cases t <;> simp_arith

/-- The fuel bound `sizeOf` suffices simultaneously for all five
fuel-instrumented rendering functions. -/
theorem fuelSpec (item : ApiItem) : ∀ f : Nat, FuelSpec item f := by
  intro f
  induction f with
  | zero =>
    refine ⟨fun t ht => ?_, fun ns hns => ?_, fun bs hbs => ?_,
      fun ss hss => ?_, fun x hx => ?_⟩
    · exact absurd ht (by have := DocNode.one_le_sizeOf t; omega)
    · cases ns <;> simp_arith at hns
    · cases bs <;> simp_arith at hbs
    · cases ss <;> simp_arith at hss
    · cases x <;> simp_arith at hx
  | succ f ih =>
    obtain ⟨ihNode, ihNodes, ihBlocks, ihSections, ihOpt⟩ := ih
    refine ⟨fun t ht => ?_, fun ns hns => ?_, fun bs hbs => ?_,
      fun ss hss => ?_, fun x hx => ?_⟩
    · cases t with
      | plainText text => simp [createNodeFuel, createNode]
      | paragraph ns =>
        have h : sizeOf ns ≤ f := by simp_arith at ht; omega
        simp [createNodeFuel, createNode, ihNodes ns h]
      | sectionNode ns =>
        have h : sizeOf ns ≤ f := by simp_arith at ht; omega
        simp [createNodeFuel, createNode, ihNodes ns h]
      | softBreak => simp [createNodeFuel, createNode]
      | linkTag c u l => simp [createNodeFuel, createNode]
      | codeSpan code => simp [createNodeFuel, createNode]
      | fencedCode lang code => simp [createNodeFuel, createNode]
      | comment dep summ rem custom ret seeBlocks =>
        have hdep : sizeOf dep ≤ f := by simp_arith at ht; omega
        have hsumm : sizeOf summ ≤ f := by simp_arith at ht; omega
        have hrem : sizeOf rem ≤ f := by simp_arith at ht; omega
        have hcustom : sizeOf custom ≤ f := by simp_arith at ht; omega
        have hret : sizeOf ret ≤ f := by simp_arith at ht; omega
        have hsee : sizeOf seeBlocks ≤ f := by simp_arith at ht; omega
        simp only [createNodeFuel, createNode, ihBlocks custom hcustom,
          ihOpt dep hdep, ihOpt summ hsumm, ihOpt rem hrem, ihOpt ret hret,
          ihSections seeBlocks hsee, Option.bind_eq_bind, Option.some_bind]
      | unknown k => simp [createNodeFuel, createNode]
    · cases ns with
      | nil => simp [createNodesFuel, createNodes]
      | cons n rest =>
        have h1 : sizeOf n ≤ f := by simp_arith at hns; omega
        have h2 : sizeOf rest ≤ f := by simp_arith at hns; omega
        simp [createNodesFuel, createNodes, ihNode n h1, ihNodes rest h2]
    · cases bs with
      | nil => simp [renderBlocksFuel, renderBlocks]
      | cons b rest =>
        obtain ⟨tag, content⟩ := b
        have h1 : sizeOf content ≤ f := by simp_arith at hbs; omega
        have h2 : sizeOf rest ≤ f := by simp_arith at hbs; omega
        simp [renderBlocksFuel, renderBlocks, ihNodes content h1, ihBlocks rest h2]
    · cases ss with
      | nil => simp [renderSectionsFuel, renderSections]
      | cons ns rest =>
        have h1 : sizeOf ns ≤ f := by simp_arith at hss; omega
        have h2 : sizeOf rest ≤ f := by simp_arith at hss; omega
        simp [renderSectionsFuel, renderSections, ihNodes ns h1, ihSections rest h2]
    · cases x with
      | none => simp [renderOptFuel, renderOpt]
      | some ns =>
        have h : sizeOf ns ≤ f := by simp_arith at hx; omega
        simp [renderOptFuel, renderOpt, ihNodes ns h]

/-- Sibling rendering distributes over list append. -/
theorem createNodes_append (item : ApiItem) (a b : List DocNode) :
    createNodes item (a ++ b) = createNodes item a ++ createNodes item b := by
  induction a with
  | nil => simp [createNodes]
  | cons n ns ih => simp [createNodes, ih]

/-- `renderBlocks` is the map that renders each custom block content and
keeps its tag. -/
theorem renderBlocks_eq_map (item : ApiItem) (bs : List (String × List DocNode)) :
    renderBlocks item bs =
      bs.map (fun b => (b.1, Output.container (createNodes item b.2))) := by
  induction bs with
  | nil => simp [renderBlocks]
  | cons b rest ih =>
    obtain ⟨tag, content⟩ := b
    simp [renderBlocks, ih]

/-- Claim C1: the renderer handles exactly the eight listed documentation
node kinds.  Every node of a kind outside the eight (the `unknown`
constructor) renders `null`, and every node built from a listed
constructor has its `kind` among the eight handled kind strings, so the
switch covers it with its corresponding branch. -/
theorem createNode_handles_exactly_eight_kinds (item : ApiItem) (t : DocNode) :
    ((∃ k, t = DocNode.unknown k) → createNode item t = Output.null) ∧
    ((∀ k, t ≠ DocNode.unknown k) → t.kind ∈ handledKinds) := by
  constructor
  · rintro ⟨k, rfl⟩
    rfl
  · intro h
    cases t with
    | unknown k => exact absurd rfl (h k)
    | plainText text => simp [DocNode.kind, handledKinds]
    | paragraph ns => simp [DocNode.kind, handledKinds]
    | sectionNode ns => simp [DocNode.kind, handledKinds]
    | softBreak => simp [DocNode.kind, handledKinds]
    | linkTag c u l => simp [DocNode.kind, handledKinds]
    | codeSpan c => simp [DocNode.kind, handledKinds]
    | fencedCode l c => simp [DocNode.kind, handledKinds]
    | comment a b c d e f => simp [DocNode.kind, handledKinds]

/-- Witness for C1: a concrete unhandled node (`HtmlStartTag`) renders
`null`, and a concrete plain-text node has a handled kind. -/
theorem createNode_handles_exactly_eight_kinds_witness :
    createNode ⟨none⟩ (DocNode.unknown "HtmlStartTag") = Output.null ∧
    (DocNode.plainText "hello").kind ∈ handledKinds :=
  ⟨(createNode_handles_exactly_eight_kinds ⟨none⟩ (DocNode.unknown "HtmlStartTag")).1
      ⟨"HtmlStartTag", rfl⟩,
   (createNode_handles_exactly_eight_kinds ⟨none⟩ (DocNode.plainText "hello")).2
      (fun k h => by simp at h)⟩

/-- Claim C2: a link-tag node with a code destination resolves against
the associated model of the item.  When the model is absent or the
reference resolves to no item the node renders `null`; when it resolves
the node renders an item link; and in a container the rendering of
sibling nodes is unaffected, the failing node keeping only its own
`null` slot. -/
theorem linkTag_resolution_skip_and_continue (item : ApiItem) (dest : String)
    (u txt : Option String) :
    (item.associatedModel = none →
      createNode item (DocNode.linkTag (some dest) u txt) = Output.null) ∧
    (∀ m, item.associatedModel = some m → m.resolve dest = none →
      createNode item (DocNode.linkTag (some dest) u txt) = Output.null) ∧
    (∀ m found, item.associatedModel = some m → m.resolve dest = some found →
      createNode item (DocNode.linkTag (some dest) u txt) =
        Output.itemLink (resolveItemURI found) (txt.getD found.displayName)) ∧
    (∀ pre post,
      createNodes item (pre ++ DocNode.linkTag (some dest) u txt :: post) =
        createNodes item pre ++
          createNode item (DocNode.linkTag (some dest) u txt) ::
            createNodes item post) := by
  refine ⟨fun h => ?_, fun m hm hr => ?_, fun m found hm hr => ?_, fun pre post => ?_⟩
  · simp [createNode, h]
  · simp [createNode, hm, hr]
  · simp [createNode, hm, hr]
  · rw [show pre ++ DocNode.linkTag (some dest) u txt :: post =
      pre ++ [DocNode.linkTag (some dest) u txt] ++ post by simp]
    rw [createNodes_append, createNodes_append]
    simp [createNodes]

/-- Witness for C2: with no associated model the link renders `null`;
with a model that does not resolve the reference it renders `null`; with
a model resolving it, it renders the item link; and the siblings of a
failing link still render. -/
theorem linkTag_resolution_skip_and_continue_witness :
    createNode ⟨none⟩ (DocNode.linkTag (some "Guild") none none) = Output.null ∧
    createNode ⟨some ⟨fun _ => none⟩⟩ (DocNode.linkTag (some "Guild") none none) =
      Output.null ∧
    createNode ⟨some ⟨fun _ => some ⟨"Guild", "discord.js/Guild"⟩⟩⟩
        (DocNode.linkTag (some "Guild") none none) =
      Output.itemLink "discord.js/Guild" "Guild" ∧
    createNodes ⟨none⟩
        [DocNode.plainText "a", DocNode.linkTag (some "Guild") none none,
         DocNode.plainText "b"] =
      [Output.span "a", Output.null, Output.span "b"] := by
  refine ⟨(linkTag_resolution_skip_and_continue ⟨none⟩ "Guild" none none).1 rfl,
    (linkTag_resolution_skip_and_continue ⟨some ⟨fun _ => none⟩⟩ "Guild" none none).2.1
      ⟨fun _ => none⟩ rfl rfl,
    (linkTag_resolution_skip_and_continue
      ⟨some ⟨fun _ => some ⟨"Guild", "discord.js/Guild"⟩⟩⟩ "Guild" none none).2.2.1
      ⟨fun _ => some ⟨"Guild", "discord.js/Guild"⟩⟩ ⟨"Guild", "discord.js/Guild"⟩ rfl rfl,
    ?_⟩
  have h := (linkTag_resolution_skip_and_continue ⟨none⟩ "Guild" none none).2.2.2
    [DocNode.plainText "a"] [DocNode.plainText "b"]
  exact h.trans rfl

/-- Claim C9: the displayed text of a link tag falls back when no
explicit link text is given: a resolved code-destination link shows the
resolved item display name, a URL-destination link shows the URL itself,
and a link tag with neither destination renders `null`. -/
theorem linkTag_text_fallback (item : ApiItem) (dest url : String)
    (txt : Option String) :
    (∀ m found, item.associatedModel = some m → m.resolve dest = some found →
      createNode item (DocNode.linkTag (some dest) none none) =
        Output.itemLink (resolveItemURI found) found.displayName) ∧
    (url ≠ "" →
      createNode item (DocNode.linkTag none (some url) none) =
        Output.urlLink url url) ∧
    (createNode item (DocNode.linkTag none none txt) = Output.null) := by
  refine ⟨fun m found hm hr => ?_, fun hu => ?_, ?_⟩
  · simp [createNode, hm, hr]
  · simp [createNode, hu]
  · simp [createNode]

/-- Witness for C9: a resolved link with no link text shows the display
name, a URL link with no link text shows the URL, and a destination-free
link renders `null`. -/
theorem linkTag_text_fallback_witness :
    createNode ⟨some ⟨fun _ => some ⟨"Client", "discord.js/Client"⟩⟩⟩
        (DocNode.linkTag (some "Client") none none) =
      Output.itemLink "discord.js/Client" "Client" ∧
    createNode ⟨none⟩ (DocNode.linkTag none (some "https://discord.js.org") none) =
      Output.urlLink "https://discord.js.org" "https://discord.js.org" ∧
    createNode ⟨none⟩ (DocNode.linkTag none none (some "text")) = Output.null :=
  ⟨(linkTag_text_fallback ⟨some ⟨fun _ => some ⟨"Client", "discord.js/Client"⟩⟩⟩
      "Client" "https://discord.js.org" (some "text")).1
      ⟨fun _ => some ⟨"Client", "discord.js/Client"⟩⟩ ⟨"Client", "discord.js/Client"⟩ rfl rfl,
   (linkTag_text_fallback ⟨none⟩ "Client" "https://discord.js.org" (some "text")).2.1
      (by simp),
   (linkTag_text_fallback ⟨none⟩ "Client" "https://discord.js.org" (some "text")).2.2⟩

/-- Claim C7: the recursive rendering terminates on every finite tree:
running `createNode` with any fuel at least the size of the tree never
exhausts the fuel, because every recursive call descends into a strict
subtree. -/
theorem createNode_terminates_within_sizeOf_fuel (item : ApiItem) (t : DocNode)
    (fuel : Nat) (h : sizeOf t ≤ fuel) :
    createNodeFuel item fuel t = some (createNode item t) :=
  (fuelSpec item fuel).1 t h

/-- Witness for C7: a concrete two-level tree is fully rendered within
fuel given by its size. -/
theorem createNode_terminates_within_sizeOf_fuel_witness :
    createNodeFuel ⟨none⟩ (sizeOf (DocNode.paragraph [DocNode.plainText "a", DocNode.softBreak]))
        (DocNode.paragraph [DocNode.plainText "a", DocNode.softBreak]) =
      some (createNode ⟨none⟩ (DocNode.paragraph [DocNode.plainText "a", DocNode.softBreak])) :=
  createNode_terminates_within_sizeOf_fuel ⟨none⟩
    (DocNode.paragraph [DocNode.plainText "a", DocNode.softBreak]) _ le_rfl

/-- The examples slot is `null` exactly for an empty block list. -/
theorem slotExamples_eq_null_iff (blocks : List (String × Output)) :
    slotExamples blocks = Output.null ↔ blocks = [] := by
  cases blocks <;> simp [slotExamples]

/-- Filtering rendered custom blocks on their tag is rendering the blocks
filtered on their tag: the tag of a block is untouched by rendering. -/
theorem renderBlocks_filter (item : ApiItem) (q : String → Bool)
    (bs : List (String × List DocNode)) :
    (renderBlocks item bs).filter (fun b => q b.1) =
      (bs.filter (fun b => q b.1)).map
        (fun b => (b.1, Output.container (createNodes item b.2))) := by
  induction bs with
  | nil => simp [renderBlocks]
  | cons b rest ih =>
    obtain ⟨tag, content⟩ := b
    by_cases h : q tag
    · simp [renderBlocks, List.filter_cons, h, ih]
    · simp [renderBlocks, List.filter_cons, h, ih]

/-- `find?` on rendered custom blocks returns the first block whose tag
matches, with its content rendered. -/
theorem renderBlocks_find?_first (item : ApiItem) (q : String → Bool) :
    ∀ (pre post : List (String × List DocNode)) (tag : String)
      (content : List DocNode),
      (∀ b ∈ pre, q b.1 = false) → q tag = true →
      (renderBlocks item (pre ++ (tag, content) :: post)).find? (fun b => q b.1) =
        some (tag, Output.container (createNodes item content)) := by
  intro pre
  induction pre with
  | nil =>
    intro post tag content _ hq
    simp [renderBlocks, List.find?, hq]
  | cons b rest ih =>
    intro post tag content hpre hq
    obtain ⟨t0, c0⟩ := b
    have h0 : q t0 = false := hpre (t0, c0) (by simp)
    simp only [List.cons_append, renderBlocks, List.find?, h0]
    exact ih post tag content (fun b hb => hpre b (by simp [hb])) hq

/-- Claim C3: in a rendered comment block each optional section slot —
deprecation, summary, remarks, default value, returns, examples, see —
is non-`null` precisely when the section is present (non-`none`, or with
a matching or non-empty block list), and the seven slots coexist in one
div, so an absent section contributes only its own `null` slot and the
others render regardless. -/
theorem comment_sections_render_iff_present (item : ApiItem)
    (dep summ rem ret : Option (List DocNode))
    (custom : List (String × List DocNode)) (seeBlocks : List (List DocNode)) :
    ∃ sDep sSumm sRem sDef sRet sEx sSee,
      createNode item (DocNode.comment dep summ rem custom ret seeBlocks) =
        Output.commentDiv [sDep, sSumm, sRem, sDef, sRet, sEx, sSee] ∧
      (sDep = Output.null ↔ dep = none) ∧
      (sSumm = Output.null ↔ summ = none) ∧
      (sRem = Output.null ↔ rem = none) ∧
      (sDef = Output.null ↔ ∀ b ∈ custom, ¬ toUpperCase b.1 = defaultValueTagUpper) ∧
      (sRet = Output.null ↔ ret = none) ∧
      (sEx = Output.null ↔ ∀ b ∈ custom, ¬ toUpperCase b.1 = exampleTagUpper) ∧
      (sSee = Output.null ↔ seeBlocks = []) := by
  refine ⟨_, _, _, _, _, _, _, rfl, ?_, ?_, ?_, ?_, ?_, ?_, ?_⟩
  · cases dep <;> simp [slotDeprecated, renderOpt]
  · cases summ <;> simp [slotSummary, renderOpt]
  · cases rem <;> simp [slotRemarks, renderOpt]
  · rw [renderBlocks_eq_map]
    cases hfind : (custom.map
        (fun b => (b.1, Output.container (createNodes item b.2)))).find?
        (fun b => toUpperCase b.1 == defaultValueTagUpper) with
    | none =>
      rw [List.find?_eq_none] at hfind
      simp only [slotDefaultValue]
      constructor
      · intro _ b hb
        have := hfind _ (List.mem_map_of_mem _ hb)
        simpa using this
      · intro _
        trivial
    | some b =>
      have hp := List.find?_some hfind
      have hmem := List.mem_of_find?_eq_some hfind
      refine iff_of_false (by simp [slotDefaultValue]) ?_
      intro hall
      obtain ⟨b0, hb0, rfl⟩ := List.mem_map.mp hmem
      exact hall b0 hb0 (by simpa using hp)
  · cases ret <;> simp [slotReturns, renderOpt]
  · rw [renderBlocks_eq_map, slotExamples_eq_null_iff, List.filter_eq_nil_iff]
    constructor
    · intro h b hb
      have := h _ (List.mem_map_of_mem _ hb)
      simpa using this
    · intro hall x hx
      obtain ⟨b0, hb0, rfl⟩ := List.mem_map.mp hx
      simpa using hall b0 hb0
  · cases seeBlocks <;> simp

/-- Claim C8: tag matching in a rendered comment block is by uppercased
tag name, every matching `@example` custom block becomes its own example
entry in block order, and the default-value slot renders only the first
custom block whose uppercased tag is `@DEFAULTVALUE`, ignoring any later
matching block. -/
theorem comment_example_and_defaultValue_blocks (item : ApiItem)
    (dep summ rem ret : Option (List DocNode)) (seeBlocks : List (List DocNode))
    (custom pre post : List (String × List DocNode)) (tag : String)
    (content : List DocNode)
    (hpre : ∀ b ∈ pre, ¬ toUpperCase b.1 = defaultValueTagUpper)
    (htag : toUpperCase tag = defaultValueTagUpper) :
    (commentSlots (createNode item
        (DocNode.comment dep summ rem custom ret seeBlocks))).get? 5 =
      some (slotExamples
        ((custom.filter (fun b => toUpperCase b.1 == exampleTagUpper)).map
          (fun b => (b.1, Output.container (createNodes item b.2))))) ∧
    (commentSlots (createNode item
        (DocNode.comment dep summ rem (pre ++ (tag, content) :: post) ret
          seeBlocks))).get? 3 =
      some (Output.defaultValue (Output.container (createNodes item content))) := by
  constructor
  · have h0 : (commentSlots (createNode item
        (DocNode.comment dep summ rem custom ret seeBlocks))).get? 5 =
        some (slotExamples ((renderBlocks item custom).filter
          (fun b => toUpperCase b.1 == exampleTagUpper))) := rfl
    rw [h0, renderBlocks_filter item (fun s => toUpperCase s == exampleTagUpper) custom]
  · have h1 : (commentSlots (createNode item
        (DocNode.comment dep summ rem (pre ++ (tag, content) :: post) ret
          seeBlocks))).get? 3 =
        some (slotDefaultValue
          ((renderBlocks item (pre ++ (tag, content) :: post)).find?
            (fun b => toUpperCase b.1 == defaultValueTagUpper))) := rfl
    rw [h1, renderBlocks_find?_first item
      (fun s => toUpperCase s == defaultValueTagUpper) pre post tag content
      (fun b hb => by simpa using hpre b hb) (by simpa using htag)]
    rfl

/-- Witness for C8: a mixed-case `@Example` block renders as an example,
and of two default-value blocks (`@defaultValue` in mixed case first)
only the first is rendered. -/
theorem comment_example_and_defaultValue_blocks_witness :
    (commentSlots (createNode ⟨none⟩
        (DocNode.comment none none none
          [("@Example", [DocNode.plainText "e1"]),
           ("@defaultValue", [DocNode.plainText "v"])] none []))).get? 5 =
      some (Output.exampleList
        [Output.exampleBlock (Output.container [Output.span "e1"])]) ∧
    (commentSlots (createNode ⟨none⟩
        (DocNode.comment none none none
          ([("@Example", [DocNode.plainText "e1"])] ++
            ("@defaultValue", [DocNode.plainText "v"]) ::
              [("@DefaultValue", [DocNode.plainText "w"])]) none []))).get? 3 =
      some (Output.defaultValue (Output.container [Output.span "v"])) :=
  ⟨((comment_example_and_defaultValue_blocks ⟨none⟩ none none none none []
      [("@Example", [DocNode.plainText "e1"]),
       ("@defaultValue", [DocNode.plainText "v"])]
      [("@Example", [DocNode.plainText "e1"])]
      [("@DefaultValue", [DocNode.plainText "w"])]
      "@defaultValue" [DocNode.plainText "v"]
      (by decide) (by decide)).1).trans rfl,
   ((comment_example_and_defaultValue_blocks ⟨none⟩ none none none none []
      [("@Example", [DocNode.plainText "e1"]),
       ("@defaultValue", [DocNode.plainText "v"])]
      [("@Example", [DocNode.plainText "e1"])]
      [("@DefaultValue", [DocNode.plainText "w"])]
      "@defaultValue" [DocNode.plainText "v"]
      (by decide) (by decide)).2).trans rfl⟩

end TSDocModel

namespace HierarchyModel

/-- Claim C4: `HierarchyText` renders a hierarchy exactly when one
exists.  A class with no extends type asked for Extends, a class with an
empty implements list asked for Implements, and an interface with an
empty extends list all render `null`; otherwise the component renders the
heading with one excerpt per parent type in model order, a single excerpt
for a class extends type. -/
theorem hierarchyText_renders_iff_hierarchy_exists
    (ext : Option HeritageType) (impl exts : List HeritageType)
    (ty : HierKind) (e : HeritageType) :
    (hierarchyText (HierItem.classItem none impl) HierKind.extendsKind =
      HierOutput.null) ∧
    (hierarchyText (HierItem.classItem ext []) HierKind.implementsKind =
      HierOutput.null) ∧
    (hierarchyText (HierItem.interfaceItem (some [])) ty = HierOutput.null) ∧
    (impl ≠ [] →
      hierarchyText (HierItem.classItem ext impl) HierKind.implementsKind =
        HierOutput.hierarchy "Implements" (impl.map (fun t => t.excerpt))) ∧
    (hierarchyText (HierItem.classItem (some e) impl) HierKind.extendsKind =
      HierOutput.hierarchy "Extends" [e.excerpt]) ∧
    (exts ≠ [] →
      hierarchyText (HierItem.interfaceItem (some exts)) ty =
        HierOutput.hierarchy ty.heading (exts.map (fun t => t.excerpt))) := by
  refine ⟨?_, ?_, ?_, fun himpl => ?_, ?_, fun hexts => ?_⟩
  · cases impl <;> simp [hierarchyText]
  · cases ext <;> simp [hierarchyText]
  · simp [hierarchyText]
  · cases ext <;> simp [hierarchyText, himpl, HierKind.heading]
  · simp [hierarchyText, HierKind.heading]
  · simp [hierarchyText, hexts]

/-- Witness for C4: concrete null cases and concrete rendered
hierarchies for a class implements list, a class extends type, and an
interface extends list. -/
theorem hierarchyText_renders_iff_hierarchy_exists_witness :
    (hierarchyText (HierItem.classItem none [⟨"Base"⟩]) HierKind.extendsKind =
      HierOutput.null) ∧
    (hierarchyText (HierItem.classItem (some ⟨"Base"⟩) []) HierKind.implementsKind =
      HierOutput.null) ∧
    (hierarchyText (HierItem.interfaceItem (some [])) HierKind.extendsKind =
      HierOutput.null) ∧
    (hierarchyText (HierItem.classItem (some ⟨"Base"⟩) [⟨"Iter"⟩, ⟨"Send"⟩])
        HierKind.implementsKind =
      HierOutput.hierarchy "Implements" ["Iter", "Send"]) ∧
    (hierarchyText (HierItem.classItem (some ⟨"Base"⟩) [⟨"Iter"⟩, ⟨"Send"⟩])
        HierKind.extendsKind =
      HierOutput.hierarchy "Extends" ["Base"]) ∧
    (hierarchyText (HierItem.interfaceItem (some [⟨"A"⟩, ⟨"B"⟩]))
        HierKind.extendsKind =
      HierOutput.hierarchy "Extends" ["A", "B"]) := by
  have h := hierarchyText_renders_iff_hierarchy_exists (some ⟨"Base"⟩)
    [⟨"Iter"⟩, ⟨"Send"⟩] [⟨"A"⟩, ⟨"B"⟩] HierKind.extendsKind ⟨"Base"⟩
  have h1 := hierarchyText_renders_iff_hierarchy_exists (some ⟨"Base"⟩)
    [⟨"Iter"⟩, ⟨"Send"⟩] [⟨"A"⟩, ⟨"B"⟩] HierKind.implementsKind ⟨"Base"⟩
  refine ⟨?_, ?_, ?_, ?_, ?_, ?_⟩
  · exact (hierarchyText_renders_iff_hierarchy_exists none [⟨"Base"⟩] []
      HierKind.extendsKind ⟨"Base"⟩).1
  · exact (hierarchyText_renders_iff_hierarchy_exists (some ⟨"Base"⟩) [] []
      HierKind.implementsKind ⟨"Base"⟩).2.1
  · exact (hierarchyText_renders_iff_hierarchy_exists (some ⟨"Base"⟩) [] []
      HierKind.extendsKind ⟨"Base"⟩).2.2.1
  · exact (h.2.2.2.1 (by simp)).trans rfl
  · exact h.2.2.2.2.1.trans rfl
  · exact (h.2.2.2.2.2 (by simp)).trans rfl

end HierarchyModel

namespace UploadModel

/-- A row present in the table stays present through the rest of the
loop: `replace into` removes only the row equal to the one it inserts,
and immediately reinserts it. -/
theorem mem_db_runLoop (version : String) (st : ScriptState)
    (jobs : List FileJob) (v d : String) (h : (v, d) ∈ st.db) :
    (v, d) ∈ (runLoop version st jobs).1.db := by
  induction jobs generalizing st with
  | nil => exact h
  | cons job rest ih =>
    cases hread : job.read with
    | error e => simpa [runLoop, hread] using h
    | ok data =>
      cases hins : job.insertErr with
      | some e =>
        simp only [runLoop, hread, hins]
        exact ih _ h
      | none =>
        simp only [runLoop, hread, hins]
        refine ih _ ?_
        simp only [replaceInto, List.mem_cons, List.mem_filter, decide_eq_true_eq]
        by_cases heq : (v, d) = (version, data)
        · exact Or.inl heq
        · exact Or.inr ⟨h, heq⟩

/-- A (version, data) row in the table makes the data retrievable by that
version. -/
theorem mem_retrieveByVersion (db : List (String × String)) (v d : String)
    (h : (v, d) ∈ db) : d ∈ retrieveByVersion db v := by
  refine List.mem_map.mpr ⟨(v, d), ?_, rfl⟩
  simp [List.mem_filter, h]

/-- Claim C5: in an error-free run, every blob matched by the glob is
stored in the documentation table under the given version, so after the
loop each one is retrievable by that version. -/
theorem upload_stores_every_matched_blob (version : String) (st : ScriptState)
    (jobs : List FileJob)
    (hok : ∀ j ∈ jobs, (∃ d0, j.read = Except.ok d0) ∧ j.insertErr = none) :
    ∀ j ∈ jobs, ∀ d, j.read = Except.ok d →
      d ∈ retrieveByVersion (runLoop version st jobs).1.db version := by
  induction jobs generalizing st with
  | nil => intro j hj; cases hj
  | cons job rest ih =>
    intro j hj d hread
    have hins := (hok job (by simp)).2
    obtain ⟨d0, hr0⟩ := (hok job (by simp)).1
    rcases List.mem_cons.mp hj with hj1 | hj1
    · subst hj1
      simp only [runLoop, hread, hins]
      refine mem_retrieveByVersion _ _ _ (mem_db_runLoop _ _ _ _ _ ?_)
      simp [replaceInto]
    · simp only [runLoop, hr0, hins]
      exact ih _ (fun j2 hj2 => hok j2 (by simp [hj2])) j hj1 d hread

/-- Witness for C5: two matched files both end up retrievable under the
uploaded version. -/
theorem upload_stores_every_matched_blob_witness :
    "blobA" ∈ retrieveByVersion (runLoop "main" ⟨[], []⟩
      [⟨"packages/a/docs/docs.api.json", Except.ok "blobA", none⟩,
       ⟨"packages/b/docs/docs.api.json", Except.ok "blobB", none⟩]).1.db "main" ∧
    "blobB" ∈ retrieveByVersion (runLoop "main" ⟨[], []⟩
      [⟨"packages/a/docs/docs.api.json", Except.ok "blobA", none⟩,
       ⟨"packages/b/docs/docs.api.json", Except.ok "blobB", none⟩]).1.db "main" := by
  have hok : ∀ j ∈ ([⟨"packages/a/docs/docs.api.json", Except.ok "blobA", none⟩,
      ⟨"packages/b/docs/docs.api.json", Except.ok "blobB", none⟩] : List FileJob),
      (∃ d0, j.read = Except.ok d0) ∧ j.insertErr = none := by
    intro j hj
    rcases List.mem_cons.mp hj with h | h
    · subst h; exact ⟨⟨"blobA", rfl⟩, rfl⟩
    · rcases List.mem_cons.mp h with h2 | h2
      · subst h2; exact ⟨⟨"blobB", rfl⟩, rfl⟩
      · cases h2
  exact ⟨upload_stores_every_matched_blob "main" ⟨[], []⟩ _ hok
      ⟨"packages/a/docs/docs.api.json", Except.ok "blobA", none⟩ (by simp)
      "blobA" rfl,
    upload_stores_every_matched_blob "main" ⟨[], []⟩ _ hok
      ⟨"packages/b/docs/docs.api.json", Except.ok "blobB", none⟩ (by simp)
      "blobB" rfl⟩

/-- Counterexample to C6 as stated: a read error on the first matched
file aborts the loop at once — the second file is returned unprocessed,
nothing is inserted, and the error escapes — instead of being recorded
and skipped. -/
theorem upload_read_error_aborts_counterexample :
    runLoop "main" ⟨[], []⟩
      [⟨"packages/a/docs/docs.api.json", Except.error "EACCES", none⟩,
       ⟨"packages/b/docs/docs.api.json", Except.ok "blobB", none⟩] =
      (⟨[], []⟩, [⟨"packages/b/docs/docs.api.json", Except.ok "blobB", none⟩],
        some "EACCES") := rfl

/-- Claim C6 (amended): only an error thrown while inserting one file is
caught by the `try`: it is recorded via `setFailed` and the loop
continues with every remaining file; an error thrown while reading a
file happens outside the `try` and aborts the loop, leaving the
remaining files unprocessed. -/
theorem upload_insert_error_continues_read_error_aborts (version : String)
    (st : ScriptState) (job : FileJob) (rest : List FileJob) :
    (∀ data e, job.read = Except.ok data → job.insertErr = some e →
      runLoop version st (job :: rest) =
        runLoop version ⟨st.db, st.failed ++ [e]⟩ rest) ∧
    (∀ e, job.read = Except.error e →
      runLoop version st (job :: rest) = (st, rest, some e)) := by
  constructor
  · intro data e hread hins
    simp only [runLoop, hread, hins]
  · intro e hread
    simp only [runLoop, hread]

/-- Witness for the amended C6: an insert failure is recorded and the
loop continues with the remaining file; a read failure aborts. -/
theorem upload_insert_error_continues_read_error_aborts_witness :
    runLoop "main" ⟨[], []⟩
      [⟨"packages/a/docs/docs.api.json", Except.ok "blobA", some "boom"⟩,
       ⟨"packages/b/docs/docs.api.json", Except.ok "blobB", none⟩] =
      runLoop "main" ⟨[], ["boom"]⟩
        [⟨"packages/b/docs/docs.api.json", Except.ok "blobB", none⟩] ∧
    runLoop "main" ⟨[], []⟩
      [⟨"packages/c/docs/docs.api.json", Except.error "EPERM", none⟩] =
      (⟨[], []⟩, [], some "EPERM") :=
  ⟨(upload_insert_error_continues_read_error_aborts "main" ⟨[], []⟩ _ _).1
      "blobA" "boom" rfl rfl,
   (upload_insert_error_continues_read_error_aborts "main" ⟨[], []⟩ _ _).2
      "EPERM" rfl⟩

/-- Claim C10: the script inputs default when absent or empty — the
package input to `*`, making the glob match every package, and the
version input to `main` — and a fenced code block is rendered with its
code trimmed and its language defaulted to `typescript` only when no
language is given. -/
theorem upload_defaults_and_fenced_code (item : TSDocModel.ApiItem)
    (input code lang : String) :
    pkgOf "" = "*" ∧
    versionOf "" = "main" ∧
    (input ≠ "" → pkgOf input = input ∧ versionOf input = input) ∧
    (∀ pkgName, globMatchesPackage (pkgOf "") pkgName = true) ∧
    TSDocModel.createNode item (TSDocModel.DocNode.fencedCode none code) =
      TSDocModel.Output.highlighted (TSDocModel.trimString code) "typescript" ∧
    TSDocModel.createNode item (TSDocModel.DocNode.fencedCode (some lang) code) =
      TSDocModel.Output.highlighted (TSDocModel.trimString code) lang := by
  refine ⟨rfl, rfl, fun h => ⟨by simp [pkgOf, h], by simp [versionOf, h]⟩,
    fun pkgName => by simp [globMatchesPackage, pkgOf], rfl, rfl⟩

/-- Witness for C10: non-empty inputs are kept, the defaulted glob
matches an arbitrary package, and a concrete fenced code block is
trimmed and highlighted as typescript. -/
theorem upload_defaults_and_fenced_code_witness :
    pkgOf "voice" = "voice" ∧
    versionOf "14.0.1" = "14.0.1" ∧
    globMatchesPackage (pkgOf "") "builders" = true ∧
    TSDocModel.createNode ⟨none⟩
        (TSDocModel.DocNode.fencedCode none "  const a = 1;  ") =
      TSDocModel.Output.highlighted "const a = 1;" "typescript" := by
  have h1 := upload_defaults_and_fenced_code ⟨none⟩ "voice" "  const a = 1;  " "ts"
  have h2 := upload_defaults_and_fenced_code ⟨none⟩ "14.0.1" "  const a = 1;  " "ts"
  refine ⟨(h1.2.2.1 (by decide)).1, (h2.2.2.1 (by decide)).2,
    h1.2.2.2.1 "builders", h1.2.2.2.2.1.trans rfl⟩

end UploadModel
